import Mathlib

/-!
Verification of the schema-conversion core of `proto-to-glue`
(`src/generate-glue-schema.ts`).

The converter walks a resolved protobuf message-type graph and produces AWS
Glue catalog columns.  We embed the data model and every converter method as
executable Lean definitions:

* `GlueType` / `Column` model `@aws-cdk/aws-glue-alpha` schema values
  (`Schema.STRING`, `Schema.struct`, `Schema.array`, ...), identified by their
  canonical `inputString` tags.
* `TypeGraph` / `MessageType` / `Field` model the protobufjs root after
  `resolveAll()`: every field carries a resolved reference tag
  (primitive tag, enum reference, or message reference by name), matching the
  source's run-time discrimination of `field.resolvedType ?? field.type`.
* The converter methods are state-passing functions over `ConvState`
  (the reachable mutable heap: the read-only graph plus the instance's
  `_processedMessages` cache).  The source recursion is unbounded, so each
  recursive entry point takes a fuel parameter; `Res.timeout` marks fuel
  exhaustion, i.e. the point where the JS recursion would still be running.
  `Res.err` models a thrown `Error`.

File loading (`_loadProtoFile`) is external I/O performed by protobufjs; the
`TypeGraph` argument of `generateGlueSchema` stands for the loaded and fully
resolved root.
-/

set_option autoImplicit false

namespace Proto

/-- Glue catalog types, identified by their canonical `inputString` tag.
`struct` carries the ordered named sub-columns, `array` the element type. -/
inductive GlueType where
  | scalar (tag : String)
  | struct (fields : List (String × GlueType))
  | array (elem : GlueType)

/-- One output column: a `(name, type)` pair (`Column` of aws-glue-alpha). -/
structure Column where
  name : String
  type : GlueType

namespace GlueSchema

/-- `glueSchema.DOUBLE` -/
def DOUBLE : GlueType := .scalar "double"

/-- `glueSchema.FLOAT` -/
def FLOAT : GlueType := .scalar "float"

/-- `glueSchema.BIG_INT` -/
def BIG_INT : GlueType := .scalar "bigint"

/-- `glueSchema.INTEGER` -/
def INTEGER : GlueType := .scalar "int"

/-- `glueSchema.BOOLEAN` -/
def BOOLEAN : GlueType := .scalar "boolean"

/-- `glueSchema.STRING` -/
def STRING : GlueType := .scalar "string"

/-- `glueSchema.array(elem)` -/
def array (elem : GlueType) : GlueType := .array elem

/-- `glueSchema.struct(columns)`: a structured type from named columns. -/
def struct (cols : List Column) : GlueType :=
  .struct (cols.map fun c => (c.name, c.type))

end GlueSchema

/-- The resolved type reference carried by a field after `resolveAll()`:
a primitive tag (resolvedType null, `field.type` is the tag), an enum
reference, or a message-type reference by name. -/
inductive FieldTypeRef where
  | prim (tag : String)
  | enumRef (name : String)
  | msgRef (name : String)

/-- A protobuf field: name, resolved type reference, repeated flag. -/
structure Field where
  name : String
  type : FieldTypeRef
  repeated : Bool

/-- A protobuf message type: fully-qualified name and ordered fields
(`Object.values(messageType.fields)` preserves insertion order). -/
structure MessageType where
  fullName : String
  fields : List Field

/-- A top-level declaration of the root (`root.nestedArray` entry):
a message type or an enum (whose members are irrelevant to conversion). -/
inductive Decl where
  | msgDecl (m : MessageType)
  | enumDecl (name : String)

/-- The resolved type graph: the root's declarations in declaration order. -/
structure TypeGraph where
  decls : List Decl

/-- The message types of the graph, in declaration order. -/
def messageDecls (g : TypeGraph) : List MessageType :=
  g.decls.filterMap fun d =>
    match d with
    | .msgDecl m => some m
    | .enumDecl _ => none

/-- Look up a message type by fully-qualified name. -/
def findMsg (g : TypeGraph) (n : String) : Option MessageType :=
  (messageDecls g).find? fun m => m.fullName == n

/-- Result of resolving a field's type reference, mirroring the source's
run-time checks `instanceof protobuf.Type` / `instanceof protobuf.Enum` /
plain string tag. -/
inductive ResolvedType where
  | prim (tag : String)
  | enumType (name : String)
  | msg (m : MessageType)

/-- `field.resolvedType ?? field.type`: message references resolve through the
graph; an unresolvable message name falls back to the raw type-name string
(which then behaves like an unknown primitive tag). -/
def resolveField (g : TypeGraph) (f : Field) : ResolvedType :=
  match f.type with
  | .prim tag => .prim tag
  | .enumRef n => .enumType n
  | .msgRef n =>
    match findMsg g n with
    | some m => .msg m
    | none => .prim n

/-- `s.resolvedType === referenceMessageType`: does `f` resolve to the message
type `t`?  Object identity within one resolved root coincides with
fully-qualified-name equality. -/
def resolvesTo (g : TypeGraph) (f : Field) (t : MessageType) : Bool :=
  match resolveField g f with
  | .msg m => m.fullName == t.fullName
  | _ => false

/-- The error taxonomy of the converter (each a `throw new Error(...)` site,
identified by its message). -/
inductive ConvError where
  | unsupportedType (tag : String)
  | circularReference (typeName : String)
  | messageNotFound (name : String)
  | noMessageTypeFound
deriving DecidableEq

/-- Outcome of running a converter step under a fuel bound: a value, a thrown
error, or fuel exhaustion (the unbounded JS recursion is still running). -/
inductive Res (α : Type) where
  | ok (val : α)
  | err (e : ConvError)
  | timeout

/-- The active type mapping: an assoc list from primitive-tag string to Glue
scalar type (`Record<string, Type>`); earlier entries shadow later ones. -/
abbrev TypeMapping : Type := List (String × GlueType)

/-- Key lookup in a type mapping (`assertKey` + index access). -/
def lookupTM (tm : TypeMapping) (tag : String) : Option GlueType :=
  (tm.find? fun p => p.1 == tag).map fun p => p.2

/-- `DEFAULT_TYPE_MAPPING` from the source, entry for entry. -/
def DEFAULT_TYPE_MAPPING : TypeMapping :=
  [("double", GlueSchema.DOUBLE),
   ("float", GlueSchema.FLOAT),
   ("int64", GlueSchema.BIG_INT),
   ("uint64", GlueSchema.BIG_INT),
   ("int32", GlueSchema.INTEGER),
   ("bool", GlueSchema.BOOLEAN),
   ("string", GlueSchema.STRING),
   ("bytes", GlueSchema.STRING),
   ("enum", GlueSchema.STRING)]

/-- The constructor's `{ ...DEFAULT_TYPE_MAPPING, ...config.typeMapping }`:
override entries shadow the defaults. -/
def activeTypeMapping (override : TypeMapping) : TypeMapping :=
  override ++ DEFAULT_TYPE_MAPPING

/-- `this.config.typeMapping.enum`: direct property access; for mappings built
by the constructor the key is always present (JS would yield `undefined`
otherwise, modelled by a sentinel scalar). -/
def enumEntry (tm : TypeMapping) : GlueType :=
  match lookupTM tm "enum" with
  | some ty => ty
  | none => .scalar "undefined"

/-- `this._processedMessages`: fully-qualified name to computed columns. -/
abbrev Cache : Type := List (String × List Column)

/-- `messageType.fullName in this._processedMessages` plus the read. -/
def cacheLookup (c : Cache) (n : String) : Option (List Column) :=
  (c.find? fun p => p.1 == n).map fun p => p.2

/-- `this._processedMessages[name] = columns` (JS property assignment; the
newest binding shadows any older one). -/
def cacheInsert (c : Cache) (n : String) (cols : List Column) : Cache :=
  (n, cols) :: c

/-- The state reachable from a converter method: the (read-only) graph and the
instance's mutable cache. -/
structure ConvState where
  graph : TypeGraph
  cache : Cache

/-- The recursion of `_detectCircularReference` over the message fields:
for each field resolving to a message type, run the check on it, aborting on
the first error; non-message fields are skipped. -/
def detectFieldListAux (g : TypeGraph) (det : MessageType → Res Unit) :
    List Field → Res Unit
  | [] => .ok ()
  | f :: fs =>
    match resolveField g f with
    | .msg m =>
      match det m with
      | .ok _ => detectFieldListAux g det fs
      | .err e => .err e
      | .timeout => .timeout
    | _ => detectFieldListAux g det fs

/-- `_detectCircularReference(messageType, referenceMessageType)`: first check
the direct fields of `current` against `origin`, throwing
`CircularReference(origin.fullName)` on a match; otherwise recurse into every
field that resolves to a message type.  The source recursion is unbounded and
has no visited set; `fuel` bounds the modelled recursion depth. -/
def detectCircular (g : TypeGraph) : Nat → MessageType → MessageType → Res Unit
  | 0, _, _ => .timeout
  | n + 1, current, origin =>
    if current.fields.any fun f => resolvesTo g f origin then
      .err (.circularReference origin.fullName)
    else
      detectFieldListAux g (fun m => detectCircular g n m origin) current.fields

/-- `_convertNonRepeatedField`, parameterized by the recursive call into
`_convertMessageType`: message types become struct columns, enums use the
mapping's `enum` entry, primitive tags are looked up in the mapping and fail
with `UnsupportedType` when absent. -/
def convertNonRepeatedFieldAux (tm : TypeMapping)
    (recur : ConvState → MessageType → Res (List Column) × ConvState)
    (s : ConvState) (f : Field) : Res Column × ConvState :=
  match resolveField s.graph f with
  | .msg m =>
    match recur s m with
    | (.ok cols, s1) => (.ok ⟨f.name, GlueSchema.struct cols⟩, s1)
    | (.err e, s1) => (.err e, s1)
    | (.timeout, s1) => (.timeout, s1)
  | .enumType _ => (.ok ⟨f.name, enumEntry tm⟩, s)
  | .prim tag =>
    match lookupTM tm tag with
    | some ty => (.ok ⟨f.name, ty⟩, s)
    | none => (.err (.unsupportedType tag), s)

/-- `_resolveRepeatedField`: wrap the non-repeated conversion's type in
`glueSchema.array`, keeping the field's own name. -/
def resolveRepeatedFieldAux (tm : TypeMapping)
    (recur : ConvState → MessageType → Res (List Column) × ConvState)
    (s : ConvState) (f : Field) : Res Column × ConvState :=
  match convertNonRepeatedFieldAux tm recur s f with
  | (.ok col, s1) => (.ok ⟨f.name, GlueSchema.array col.type⟩, s1)
  | (.err e, s1) => (.err e, s1)
  | (.timeout, s1) => (.timeout, s1)

/-- `_convertField`: dispatch on the repeated flag. -/
def convertFieldAux (tm : TypeMapping)
    (recur : ConvState → MessageType → Res (List Column) × ConvState)
    (s : ConvState) (f : Field) : Res Column × ConvState :=
  if f.repeated then resolveRepeatedFieldAux tm recur s f
  else convertNonRepeatedFieldAux tm recur s f

/-- `Object.values(messageType.fields).map((field) => this._convertField(field))`:
convert the fields left to right, aborting on the first failure. -/
def convertFieldListAux
    (cf : ConvState → Field → Res Column × ConvState) :
    ConvState → List Field → Res (List Column) × ConvState
  | s, [] => (.ok [], s)
  | s, f :: fs =>
    match cf s f with
    | (.ok col, s1) =>
      match convertFieldListAux cf s1 fs with
      | (.ok cols, s2) => (.ok (col :: cols), s2)
      | (.err e, s2) => (.err e, s2)
      | (.timeout, s2) => (.timeout, s2)
    | (.err e, s1) => (.err e, s1)
    | (.timeout, s1) => (.timeout, s1)

/-- `_convertMessageType`: return the cached columns when the fully-qualified
name is already a cache key; otherwise run cycle detection (origin = the type
itself), convert every field in declared order, store the result in the cache
and return it. -/
def convertMessageType (tm : TypeMapping) :
    Nat → ConvState → MessageType → Res (List Column) × ConvState
  | 0, s, _ => (.timeout, s)
  | n + 1, s, t =>
    match cacheLookup s.cache t.fullName with
    | some cols => (.ok cols, s)
    | none =>
      match detectCircular s.graph (n + 1) t t with
      | .ok _ =>
        match convertFieldListAux
            (convertFieldAux tm (fun s2 m => convertMessageType tm n s2 m))
            s t.fields with
        | (.ok cols, s1) =>
          (.ok cols, { s1 with cache := cacheInsert s1.cache t.fullName cols })
        | (.err e, s1) => (.err e, s1)
        | (.timeout, s1) => (.timeout, s1)
      | .err e => (.err e, s)
      | .timeout => (.timeout, s)

/-- `_convertField` at a given fuel bound. -/
def convertField (tm : TypeMapping) (n : Nat) :
    ConvState → Field → Res Column × ConvState :=
  convertFieldAux tm (convertMessageType tm n)

/-- `_convertNonRepeatedField` at a given fuel bound. -/
def convertNonRepeatedField (tm : TypeMapping) (n : Nat) :
    ConvState → Field → Res Column × ConvState :=
  convertNonRepeatedFieldAux tm (convertMessageType tm n)

/-- `_resolveRepeatedField` at a given fuel bound. -/
def resolveRepeatedField (tm : TypeMapping) (n : Nat) :
    ConvState → Field → Res Column × ConvState :=
  resolveRepeatedFieldAux tm (convertMessageType tm n)

/-- The field loop of `_convertMessageType` at a given fuel bound. -/
def convertFieldList (tm : TypeMapping) (n : Nat) :
    ConvState → List Field → Res (List Column) × ConvState :=
  convertFieldListAux (convertField tm n)

/-- `root.lookupType(messageName)` on the flat declaration list: the message
type with the given fully-qualified name, if any (protobufjs throws
`no such type` when the lookup fails). -/
def lookupType (g : TypeGraph) (n : String) : Option MessageType :=
  findMsg g n

/-- `root.nestedArray.find((nested) => nested instanceof protobuf.Type)`:
the first top-level message type in declaration order, skipping enums. -/
def firstMessageType (g : TypeGraph) : Option MessageType :=
  (messageDecls g).head?

/-- `generateGlueSchema(protoFile, messageName?)` after the external loader
has produced the resolved graph held in `s.graph`: select the target type
(explicit name via `lookupType`, otherwise the first message declaration,
failing with the respective error), then convert it. -/
def generateGlueSchema (tm : TypeMapping) (fuel : Nat) (s : ConvState)
    (messageName : Option String) : Res (List Column) × ConvState :=
  match messageName with
  | some n =>
    match lookupType s.graph n with
    | some t => convertMessageType tm fuel s t
    | none => (.err (.messageNotFound n), s)
  | none =>
    match firstMessageType s.graph with
    | some t => convertMessageType tm fuel s t
    | none => (.err .noMessageTypeFound, s)

/-! ## Example schemas used as concrete witnesses -/

/-- `message Address { string street = 1; string city = 2; }` -/
def msgAddress : MessageType :=
  ⟨"Address", [⟨"street", .prim "string", false⟩, ⟨"city", .prim "string", false⟩]⟩

/-- `message User { string name; int32 age; repeated string hobbies; Address address; }` -/
def msgUser : MessageType :=
  ⟨"User", [⟨"name", .prim "string", false⟩, ⟨"age", .prim "int32", false⟩,
            ⟨"hobbies", .prim "string", true⟩, ⟨"address", .msgRef "Address", false⟩]⟩

/-- The end-to-end example graph: `User` then `Address`. -/
def gUser : TypeGraph := ⟨[.msgDecl msgUser, .msgDecl msgAddress]⟩

/-- The expected columns of `Address`. -/
def addressColumns : List Column :=
  [⟨"street", GlueSchema.STRING⟩, ⟨"city", GlueSchema.STRING⟩]

/-- The expected columns of `User`. -/
def userColumns : List Column :=
  [⟨"name", GlueSchema.STRING⟩, ⟨"age", GlueSchema.INTEGER⟩,
   ⟨"hobbies", GlueSchema.array GlueSchema.STRING⟩,
   ⟨"address", GlueSchema.struct addressColumns⟩]

/-- `message A { A self = 1; }`: a direct self-reference. -/
def msgSelfA : MessageType := ⟨"A", [⟨"self", .msgRef "A", false⟩]⟩

/-- Graph with only the self-referential `A`. -/
def gSelf : TypeGraph := ⟨[.msgDecl msgSelfA]⟩

/-! ## Basic cache and lookup lemmas -/

theorem cacheLookup_insert_self (c : Cache) (n : String) (cols : List Column) :
    cacheLookup (cacheInsert c n cols) n = some cols := by
  simp [cacheLookup, cacheInsert, List.find?]

theorem cacheLookup_insert_ne (c : Cache) (k n : String) (cols : List Column)
    (h : k ≠ n) : cacheLookup (cacheInsert c k cols) n = cacheLookup c n := by
  have hb : (k == n) = false := by simpa using h
  simp [cacheLookup, cacheInsert, List.find?, hb]

theorem cacheLookup_nil (n : String) : cacheLookup ([] : Cache) n = none := rfl

/-- A successful `findMsg` returns a type whose full name is the looked-up key. -/
theorem findMsg_fullName {g : TypeGraph} {n : String} {m : MessageType}
    (h : findMsg g n = some m) : m.fullName = n := by
  have := List.find?_some h
  simpa using this

/-- A field that resolves to a message type resolves through a successful
graph lookup keyed by that type's own full name. -/
theorem resolveField_findMsg {g : TypeGraph} {f : Field} {m : MessageType}
    (h : resolveField g f = .msg m) : findMsg g m.fullName = some m := by
  unfold resolveField at h
  cases hft : f.type with
  | prim tag => simp [hft] at h
  | enumRef n => simp [hft] at h
  | msgRef n =>
    simp only [hft] at h
    cases hf : findMsg g n with
    | none => simp [hf] at h
    | some m2 =>
      simp only [hf] at h
      have hm : m2 = m := by simpa using h
      subst hm
      rwa [findMsg_fullName hf]

/-- `_convertNonRepeatedField` never reads the repeated flag. -/
theorem convertNonRepeatedFieldAux_repeated (tm : TypeMapping)
    (recur : ConvState → MessageType → Res (List Column) × ConvState)
    (s : ConvState) (fn : String) (ft : FieldTypeRef) (b b2 : Bool) :
    convertNonRepeatedFieldAux tm recur s ⟨fn, ft, b⟩ =
      convertNonRepeatedFieldAux tm recur s ⟨fn, ft, b2⟩ := rfl

/-! ## C3: primitive and enum field mapping -/

/-- C3: a non-repeated field resolving to a primitive tag present in the
active mapping converts to a column named after the field whose type is the
mapping entry for that tag; a non-repeated field resolving to an enum always
converts to a scalar column carrying the mapping's `enum` entry, independent
of the enum's name or values (never expanded into a structure); and the
default mapping is exactly double→DOUBLE, float→FLOAT, int64→BIG_INT,
uint64→BIG_INT, int32→INTEGER, bool→BOOLEAN, string→STRING, bytes→STRING,
enum→STRING. -/
theorem c3_primitive_and_enum_mapping :
    (∀ (tm : TypeMapping) (n : Nat) (s : ConvState) (f : Field) (tag : String)
        (ty : GlueType),
      f.repeated = false → resolveField s.graph f = .prim tag →
      lookupTM tm tag = some ty →
      convertField tm n s f = (.ok ⟨f.name, ty⟩, s))
    ∧ (∀ (tm : TypeMapping) (n : Nat) (s : ConvState) (f : Field) (e : String),
      f.repeated = false → resolveField s.graph f = .enumType e →
      convertField tm n s f = (.ok ⟨f.name, enumEntry tm⟩, s))
    ∧ (lookupTM DEFAULT_TYPE_MAPPING "double" = some GlueSchema.DOUBLE
       ∧ lookupTM DEFAULT_TYPE_MAPPING "float" = some GlueSchema.FLOAT
       ∧ lookupTM DEFAULT_TYPE_MAPPING "int64" = some GlueSchema.BIG_INT
       ∧ lookupTM DEFAULT_TYPE_MAPPING "uint64" = some GlueSchema.BIG_INT
       ∧ lookupTM DEFAULT_TYPE_MAPPING "int32" = some GlueSchema.INTEGER
       ∧ lookupTM DEFAULT_TYPE_MAPPING "bool" = some GlueSchema.BOOLEAN
       ∧ lookupTM DEFAULT_TYPE_MAPPING "string" = some GlueSchema.STRING
       ∧ lookupTM DEFAULT_TYPE_MAPPING "bytes" = some GlueSchema.STRING
       ∧ lookupTM DEFAULT_TYPE_MAPPING "enum" = some GlueSchema.STRING
       ∧ DEFAULT_TYPE_MAPPING.map Prod.fst =
           ["double", "float", "int64", "uint64", "int32", "bool", "string",
            "bytes", "enum"]) := by
  refine ⟨?_, ?_, rfl, rfl, rfl, rfl, rfl, rfl, rfl, rfl, rfl, rfl⟩
  · intro tm n s f tag ty hrep hres hlk
    simp [convertField, convertFieldAux, hrep, convertNonRepeatedFieldAux, hres, hlk]
  · intro tm n s f e hrep hres
    simp [convertField, convertFieldAux, hrep, convertNonRepeatedFieldAux, hres]

/-- Witness for C3 at concrete inputs: an `int32` field and an enum field. -/
theorem c3_primitive_and_enum_mapping_witness :
    convertField DEFAULT_TYPE_MAPPING 1 ⟨gUser, []⟩ ⟨"age", .prim "int32", false⟩ =
      (.ok ⟨"age", GlueSchema.INTEGER⟩, ⟨gUser, []⟩)
    ∧ convertField DEFAULT_TYPE_MAPPING 1 ⟨gUser, []⟩ ⟨"status", .enumRef "GlobalStatus", false⟩ =
      (.ok ⟨"status", enumEntry DEFAULT_TYPE_MAPPING⟩, ⟨gUser, []⟩) :=
  ⟨c3_primitive_and_enum_mapping.1 DEFAULT_TYPE_MAPPING 1 ⟨gUser, []⟩
      ⟨"age", .prim "int32", false⟩ "int32" GlueSchema.INTEGER rfl rfl rfl,
   c3_primitive_and_enum_mapping.2.1 DEFAULT_TYPE_MAPPING 1 ⟨gUser, []⟩
      ⟨"status", .enumRef "GlobalStatus", false⟩ "GlobalStatus" rfl rfl⟩

/-! ## C4: repeated fields wrap the non-repeated conversion in a list -/

/-- C4: converting a repeated field yields a column keeping the field's own
name whose type is `array(T)`, where `T` is the type produced by converting
the same field as if it were non-repeated — uniformly for primitives, enums
and message types. -/
theorem c4_repeated_wraps_nonrepeated :
    ∀ (tm : TypeMapping) (n : Nat) (s : ConvState) (f : Field) (col : Column)
      (s2 : ConvState),
      convertField tm n s { f with repeated := false } = (.ok col, s2) →
      convertField tm n s { f with repeated := true } =
        (.ok ⟨f.name, GlueSchema.array col.type⟩, s2) := by
  intro tm n s f col s2 h
  cases f with
  | mk fn ft fr =>
    have h1 : convertNonRepeatedFieldAux tm (convertMessageType tm n) s
        ⟨fn, ft, true⟩ = (.ok col, s2) := by
      rw [convertNonRepeatedFieldAux_repeated tm _ s fn ft true false]
      simpa [convertField, convertFieldAux] using h
    show convertField tm n s ⟨fn, ft, true⟩ = _
    simp [convertField, convertFieldAux, resolveRepeatedFieldAux, h1, GlueSchema.array]

/-- Witness for C4: a repeated `string` field and a repeated message field. -/
theorem c4_repeated_wraps_nonrepeated_witness :
    convertField DEFAULT_TYPE_MAPPING 1 ⟨gUser, []⟩ ⟨"hobbies", .prim "string", true⟩ =
      (.ok ⟨"hobbies", GlueSchema.array GlueSchema.STRING⟩, ⟨gUser, []⟩)
    ∧ convertField DEFAULT_TYPE_MAPPING 1 ⟨gUser, []⟩ ⟨"ads", .msgRef "Address", true⟩ =
      (.ok ⟨"ads", GlueSchema.array (GlueSchema.struct addressColumns)⟩,
        ⟨gUser, [("Address", addressColumns)]⟩) :=
  ⟨c4_repeated_wraps_nonrepeated DEFAULT_TYPE_MAPPING 1 ⟨gUser, []⟩
      ⟨"hobbies", .prim "string", true⟩ ⟨"hobbies", GlueSchema.STRING⟩ ⟨gUser, []⟩ rfl,
   c4_repeated_wraps_nonrepeated DEFAULT_TYPE_MAPPING 1 ⟨gUser, []⟩
      ⟨"ads", .msgRef "Address", true⟩ ⟨"ads", GlueSchema.struct addressColumns⟩
      ⟨gUser, [("Address", addressColumns)]⟩ rfl⟩

/-! ## C5: memoized idempotence of message-type conversion -/

/-- C5: a successful `convertMessageType` leaves its result in the cache under
the type's fully-qualified name, and any second call on the same type returns
the identical column sequence with the state unchanged — already at fuel 1,
i.e. through the cache short-circuit alone, with no field re-traversal, cycle
re-check, or mapping lookup. -/
theorem c5_convertMessageType_idempotent :
    ∀ (tm : TypeMapping) (n : Nat) (s : ConvState) (t : MessageType)
      (cols : List Column) (s2 : ConvState),
      convertMessageType tm n s t = (.ok cols, s2) →
      cacheLookup s2.cache t.fullName = some cols ∧
      ∀ m : Nat, convertMessageType tm (m + 1) s2 t = (.ok cols, s2) := by
  intro tm n s t cols s2 h
  have hlk : cacheLookup s2.cache t.fullName = some cols := by
    cases n with
    | zero => exact absurd h (by simp [convertMessageType])
    | succ n =>
      unfold convertMessageType at h
      cases hc : cacheLookup s.cache t.fullName with
      | some cols0 =>
        simp only [hc] at h
        obtain ⟨h1, h2⟩ := Prod.mk.injEq .. ▸ h
        cases h1
        cases h2
        exact hc
      | none =>
        simp only [hc] at h
        cases hd : detectCircular s.graph (n + 1) t t with
        | ok u =>
          simp only [hd] at h
          rcases hf : convertFieldListAux
              (convertFieldAux tm fun s2 m => convertMessageType tm n s2 m)
              s t.fields with ⟨r, s1⟩
          rw [hf] at h
          cases r with
          | ok cols1 =>
            simp only at h
            obtain ⟨h1, h2⟩ := Prod.mk.injEq .. ▸ h
            cases h1
            cases h2
            exact cacheLookup_insert_self ..
          | err e => simp at h
          | timeout => simp at h
        | err e => simp [hd] at h
        | timeout => simp [hd] at h
  refine ⟨hlk, fun m => ?_⟩
  unfold convertMessageType
  simp [hlk]

/-- The cache contents after converting `User` from an empty cache. -/
def cacheUserFinal : Cache := [("User", userColumns), ("Address", addressColumns)]

/-- Witness for C5: after converting `User`, a second call at fuel 1 returns
the cached columns immediately. -/
theorem c5_convertMessageType_idempotent_witness :
    convertMessageType DEFAULT_TYPE_MAPPING 1 ⟨gUser, cacheUserFinal⟩ msgUser =
      (.ok userColumns, ⟨gUser, cacheUserFinal⟩) :=
  (c5_convertMessageType_idempotent DEFAULT_TYPE_MAPPING 2 ⟨gUser, []⟩ msgUser
    userColumns ⟨gUser, cacheUserFinal⟩ rfl).2 0

/-! ## C7: target selection and its errors -/

/-- C7: an explicit message name absent from the graph fails with
`MessageNotFound` carrying that name; no name on a graph with zero message
types fails with the distinct `NoMessageTypeFound`; and with no name the
target is the first top-level message declaration in order, skipping
non-message declarations. -/
theorem c7_target_selection :
    (∀ (tm : TypeMapping) (fuel : Nat) (s : ConvState) (n : String),
      lookupType s.graph n = none →
      generateGlueSchema tm fuel s (some n) = (.err (.messageNotFound n), s))
    ∧ (∀ (tm : TypeMapping) (fuel : Nat) (s : ConvState),
      messageDecls s.graph = [] →
      generateGlueSchema tm fuel s none = (.err .noMessageTypeFound, s))
    ∧ (∀ n : String, ConvError.messageNotFound n ≠ ConvError.noMessageTypeFound)
    ∧ (∀ (tm : TypeMapping) (fuel : Nat) (s : ConvState) (ds rest : List Decl)
        (t : MessageType),
      s.graph.decls = ds ++ .msgDecl t :: rest →
      (∀ d ∈ ds, ∀ m : MessageType, d ≠ .msgDecl m) →
      generateGlueSchema tm fuel s none = convertMessageType tm fuel s t) := by
  refine ⟨?_, ?_, ?_, ?_⟩
  · intro tm fuel s n h
    simp [generateGlueSchema, h]
  · intro tm fuel s h
    simp [generateGlueSchema, firstMessageType, h]
  · intro n h
    exact ConvError.noConfusion h
  · intro tm fuel s ds rest t hdecls hds
    have hfm : firstMessageType s.graph = some t := by
      unfold firstMessageType messageDecls
      rw [hdecls, List.filterMap_append]
      have hnil : (ds.filterMap fun d => match d with
          | .msgDecl m => some m
          | .enumDecl _ => none) = [] := by
        rw [List.filterMap_eq_nil_iff]
        intro d hd
        cases d with
        | msgDecl m => exact absurd rfl (hds _ hd m)
        | enumDecl e => rfl
      rw [hnil]
      simp [List.filterMap_cons]
    simp [generateGlueSchema, hfm]

/-- A graph whose first declaration is an enum, then `Address`. -/
def gEnumFirst : TypeGraph := ⟨[.enumDecl "Status", .msgDecl msgAddress]⟩

/-- Witness for C7 at concrete inputs: missing explicit name, empty graph,
and first-message selection that skips a leading enum. -/
theorem c7_target_selection_witness :
    generateGlueSchema DEFAULT_TYPE_MAPPING 1 ⟨gUser, []⟩ (some "Nope") =
      (.err (.messageNotFound "Nope"), ⟨gUser, []⟩)
    ∧ generateGlueSchema DEFAULT_TYPE_MAPPING 1 ⟨⟨[.enumDecl "E"]⟩, []⟩ none =
      (.err .noMessageTypeFound, ⟨⟨[.enumDecl "E"]⟩, []⟩)
    ∧ generateGlueSchema DEFAULT_TYPE_MAPPING 1 ⟨gEnumFirst, []⟩ none =
      convertMessageType DEFAULT_TYPE_MAPPING 1 ⟨gEnumFirst, []⟩ msgAddress :=
  ⟨c7_target_selection.1 DEFAULT_TYPE_MAPPING 1 ⟨gUser, []⟩ "Nope" rfl,
   c7_target_selection.2.1 DEFAULT_TYPE_MAPPING 1 ⟨⟨[.enumDecl "E"]⟩, []⟩ rfl,
   c7_target_selection.2.2.2 DEFAULT_TYPE_MAPPING 1 ⟨gEnumFirst, []⟩
     [.enumDecl "Status"] [] msgAddress rfl
     (by
       intro d hd m
       rw [List.mem_singleton] at hd
       subst hd
       exact fun hcon => Decl.noConfusion hcon)⟩

/-! ## C8: unsupported primitive tags -/

/-- `message Bad { sint32 x = 1; }`: `sint32` has no mapping entry. -/
def msgBad : MessageType := ⟨"Bad", [⟨"x", .prim "sint32", false⟩]⟩

/-- Graph with only `Bad`. -/
def gBad : TypeGraph := ⟨[.msgDecl msgBad]⟩

/-- C8: a non-repeated field resolving to a primitive tag absent from the
active mapping fails with `UnsupportedType(tag)`, and the failure aborts the
whole `generateGlueSchema` call: no fallback type, no partial schema and no
cache change. -/
theorem c8_unsupported_type :
    (∀ (tm : TypeMapping) (n : Nat) (s : ConvState) (f : Field) (tag : String),
      f.repeated = false → resolveField s.graph f = .prim tag →
      lookupTM tm tag = none →
      convertField tm n s f = (.err (.unsupportedType tag), s))
    ∧ (∀ (tm : TypeMapping) (n : Nat) (s : ConvState) (nm : String)
        (t : MessageType) (f : Field) (fs : List Field) (tag : String),
      lookupType s.graph nm = some t →
      cacheLookup s.cache t.fullName = none →
      detectCircular s.graph (n + 1) t t = .ok () →
      t.fields = f :: fs →
      f.repeated = false → resolveField s.graph f = .prim tag →
      lookupTM tm tag = none →
      generateGlueSchema tm (n + 1) s (some nm) =
        (.err (.unsupportedType tag), s)) := by
  constructor
  · intro tm n s f tag hrep hres hlk
    simp [convertField, convertFieldAux, hrep, convertNonRepeatedFieldAux, hres, hlk]
  · intro tm n s nm t f fs tag hlt hc hdet hfields hrep hres hlk
    simp only [generateGlueSchema, lookupType] at hlt ⊢
    rw [hlt]
    unfold convertMessageType
    simp only [hc, hdet, hfields]
    simp [convertFieldListAux, convertFieldAux, hrep, convertNonRepeatedFieldAux,
      hres, hlk]

/-- Witness for C8: converting `Bad` fails with `UnsupportedType("sint32")`. -/
theorem c8_unsupported_type_witness :
    convertField DEFAULT_TYPE_MAPPING 1 ⟨gBad, []⟩ ⟨"x", .prim "sint32", false⟩ =
      (.err (.unsupportedType "sint32"), ⟨gBad, []⟩)
    ∧ generateGlueSchema DEFAULT_TYPE_MAPPING 1 ⟨gBad, []⟩ (some "Bad") =
      (.err (.unsupportedType "sint32"), ⟨gBad, []⟩) :=
  ⟨c8_unsupported_type.1 DEFAULT_TYPE_MAPPING 1 ⟨gBad, []⟩
      ⟨"x", .prim "sint32", false⟩ "sint32" rfl rfl rfl,
   c8_unsupported_type.2 DEFAULT_TYPE_MAPPING 0 ⟨gBad, []⟩ "Bad" msgBad
      ⟨"x", .prim "sint32", false⟩ [] "sint32" rfl rfl rfl rfl rfl rfl rfl⟩

/-! ## Frame lemmas: the converter never writes the graph -/

theorem convertNonRepeatedFieldAux_graph (tm : TypeMapping)
    (recur : ConvState → MessageType → Res (List Column) × ConvState)
    (hrec : ∀ s m, ((recur s m).2).graph = s.graph) :
    ∀ s f, ((convertNonRepeatedFieldAux tm recur s f).2).graph = s.graph := by
  intro s f
  unfold convertNonRepeatedFieldAux
  cases hres : resolveField s.graph f with
  | msg m =>
    simp only [hres]
    rcases hr : recur s m with ⟨r, s1⟩
    have hg : s1.graph = s.graph := by rw [← hrec s m, hr]
    cases r <;> simpa using hg
  | enumType e => simp [hres]
  | prim tag =>
    simp only [hres]
    cases hlk : lookupTM tm tag <;> simp [hlk]

theorem resolveRepeatedFieldAux_graph (tm : TypeMapping)
    (recur : ConvState → MessageType → Res (List Column) × ConvState)
    (hrec : ∀ s m, ((recur s m).2).graph = s.graph) :
    ∀ s f, ((resolveRepeatedFieldAux tm recur s f).2).graph = s.graph := by
  intro s f
  unfold resolveRepeatedFieldAux
  rcases hr : convertNonRepeatedFieldAux tm recur s f with ⟨r, s1⟩
  have hg : s1.graph = s.graph := by
    rw [← convertNonRepeatedFieldAux_graph tm recur hrec s f, hr]
  cases r <;> simpa using hg

theorem convertFieldAux_graph (tm : TypeMapping)
    (recur : ConvState → MessageType → Res (List Column) × ConvState)
    (hrec : ∀ s m, ((recur s m).2).graph = s.graph) :
    ∀ s f, ((convertFieldAux tm recur s f).2).graph = s.graph := by
  intro s f
  cases hrep : f.repeated with
  | true =>
    simpa [convertFieldAux, hrep] using resolveRepeatedFieldAux_graph tm recur hrec s f
  | false =>
    simpa [convertFieldAux, hrep] using convertNonRepeatedFieldAux_graph tm recur hrec s f

theorem convertFieldListAux_graph
    (cf : ConvState → Field → Res Column × ConvState)
    (hcf : ∀ s f, ((cf s f).2).graph = s.graph) :
    ∀ fs s, ((convertFieldListAux cf s fs).2).graph = s.graph := by
  intro fs
  induction fs with
  | nil => intro s; simp [convertFieldListAux]
  | cons f fs ih =>
    intro s
    unfold convertFieldListAux
    rcases h1 : cf s f with ⟨r1, s1⟩
    have hg1 : s1.graph = s.graph := by rw [← hcf s f, h1]
    cases r1 with
    | ok col =>
      rcases h2 : convertFieldListAux cf s1 fs with ⟨r2, s2⟩
      have hg2 : s2.graph = s1.graph := by rw [← ih s1, h2]
      simp only [h2]
      cases r2 <;> simp [hg1, hg2]
    | err e => simpa using hg1
    | timeout => simpa using hg1

theorem convertMessageType_graph (tm : TypeMapping) :
    ∀ (n : Nat) (s : ConvState) (t : MessageType),
      ((convertMessageType tm n s t).2).graph = s.graph := by
  intro n
  induction n with
  | zero => intro s t; rfl
  | succ n ih =>
    intro s t
    unfold convertMessageType
    cases hc : cacheLookup s.cache t.fullName with
    | some cols => simp [hc]
    | none =>
      simp only [hc]
      cases hd : detectCircular s.graph (n + 1) t t with
      | ok u =>
        simp only [hd]
        rcases hf : convertFieldListAux
            (convertFieldAux tm fun s2 m => convertMessageType tm n s2 m)
            s t.fields with ⟨r, s1⟩
        have hg : s1.graph = s.graph := by
          rw [← convertFieldListAux_graph _
            (convertFieldAux_graph tm _ fun s2 m => ih s2 m) t.fields s, hf]
        cases r <;> simpa using hg
      | err e => simp [hd]
      | timeout => simp [hd]

theorem generateGlueSchema_graph (tm : TypeMapping) (fuel : Nat) (s : ConvState)
    (mn : Option String) :
    ((generateGlueSchema tm fuel s mn).2).graph = s.graph := by
  cases mn with
  | some n =>
    unfold generateGlueSchema
    cases h : lookupType s.graph n with
    | some t => simpa [h] using convertMessageType_graph tm fuel s t
    | none => simp [h]
  | none =>
    unfold generateGlueSchema
    cases h : firstMessageType s.graph with
    | some t => simpa [h] using convertMessageType_graph tm fuel s t
    | none => simp [h]

/-! ## C9: converter operations never mutate the type graph -/

/-- C9: no converter operation writes the type graph: the graph component of
the state after `convertField`, `convertMessageType` or `generateGlueSchema`
equals the graph before, the only written component being the conversion
cache.  (`_detectCircularReference` is modelled with no state output at all:
its source body performs no write besides protobufjs's idempotent
`resolveAll`, which the public entry point has already run on the root.) -/
theorem c9_graph_readonly :
    ∀ (tm : TypeMapping) (n : Nat) (s : ConvState) (f : Field)
      (t : MessageType) (mn : Option String),
      ((convertField tm n s f).2).graph = s.graph
      ∧ ((convertMessageType tm n s t).2).graph = s.graph
      ∧ ((generateGlueSchema tm n s mn).2).graph = s.graph :=
  fun tm n s f t mn =>
    ⟨convertFieldAux_graph tm _ (fun s2 m => convertMessageType_graph tm n s2 m) s f,
     convertMessageType_graph tm n s t,
     generateGlueSchema_graph tm n s mn⟩

/-! ## Cache-preservation lemmas: existing entries are never lost -/

/-- Every association present in `c` is still observable in `c2`. -/
def cachePreserved (c c2 : Cache) : Prop :=
  ∀ N v, cacheLookup c N = some v → cacheLookup c2 N = some v

theorem cachePreserved_refl (c : Cache) : cachePreserved c c := fun _ _ h => h

theorem cachePreserved_trans {a b c : Cache} (h1 : cachePreserved a b)
    (h2 : cachePreserved b c) : cachePreserved a c :=
  fun N v h => h2 N v (h1 N v h)

theorem convertNonRepeatedFieldAux_cache (tm : TypeMapping)
    (recur : ConvState → MessageType → Res (List Column) × ConvState)
    (hrec : ∀ s m, cachePreserved s.cache ((recur s m).2).cache) :
    ∀ s f, cachePreserved s.cache ((convertNonRepeatedFieldAux tm recur s f).2).cache := by
  intro s f
  unfold convertNonRepeatedFieldAux
  cases hres : resolveField s.graph f with
  | msg m =>
    simp only [hres]
    rcases hr : recur s m with ⟨r, s1⟩
    have hg : cachePreserved s.cache s1.cache := by
      have := hrec s m
      rwa [hr] at this
    cases r <;> simpa using hg
  | enumType e => simpa [hres] using cachePreserved_refl s.cache
  | prim tag =>
    simp only [hres]
    cases hlk : lookupTM tm tag <;> simpa [hlk] using cachePreserved_refl s.cache

theorem convertFieldAux_cache (tm : TypeMapping)
    (recur : ConvState → MessageType → Res (List Column) × ConvState)
    (hrec : ∀ s m, cachePreserved s.cache ((recur s m).2).cache) :
    ∀ s f, cachePreserved s.cache ((convertFieldAux tm recur s f).2).cache := by
  intro s f
  cases hrep : f.repeated with
  | false =>
    simpa [convertFieldAux, hrep] using
      convertNonRepeatedFieldAux_cache tm recur hrec s f
  | true =>
    simp only [convertFieldAux, hrep, if_pos]
    unfold resolveRepeatedFieldAux
    rcases hr : convertNonRepeatedFieldAux tm recur s f with ⟨r, s1⟩
    have hg : cachePreserved s.cache s1.cache := by
      have := convertNonRepeatedFieldAux_cache tm recur hrec s f
      rwa [hr] at this
    cases r <;> simpa using hg

theorem convertFieldListAux_cache
    (cf : ConvState → Field → Res Column × ConvState)
    (hcf : ∀ s f, cachePreserved s.cache ((cf s f).2).cache) :
    ∀ fs s, cachePreserved s.cache ((convertFieldListAux cf s fs).2).cache := by
  intro fs
  induction fs with
  | nil => intro s; simpa [convertFieldListAux] using cachePreserved_refl s.cache
  | cons f fs ih =>
    intro s
    unfold convertFieldListAux
    rcases h1 : cf s f with ⟨r1, s1⟩
    have hg1 : cachePreserved s.cache s1.cache := by
      have := hcf s f
      rwa [h1] at this
    cases r1 with
    | ok col =>
      rcases h2 : convertFieldListAux cf s1 fs with ⟨r2, s2⟩
      have hg2 : cachePreserved s1.cache s2.cache := by
        have := ih s1
        rwa [h2] at this
      simp only [h2]
      cases r2 <;> simpa using cachePreserved_trans hg1 hg2
    | err e => simpa using hg1
    | timeout => simpa using hg1

theorem convertMessageType_cache (tm : TypeMapping) :
    ∀ (n : Nat) (s : ConvState) (t : MessageType),
      cachePreserved s.cache ((convertMessageType tm n s t).2).cache := by
  intro n
  induction n with
  | zero => intro s t; exact cachePreserved_refl s.cache
  | succ n ih =>
    intro s t
    unfold convertMessageType
    cases hc : cacheLookup s.cache t.fullName with
    | some cols => simpa [hc] using cachePreserved_refl s.cache
    | none =>
      simp only [hc]
      cases hd : detectCircular s.graph (n + 1) t t with
      | ok u =>
        simp only [hd]
        rcases hf : convertFieldListAux
            (convertFieldAux tm fun s2 m => convertMessageType tm n s2 m)
            s t.fields with ⟨r, s1⟩
        have hg : cachePreserved s.cache s1.cache := by
          have := convertFieldListAux_cache _
            (convertFieldAux_cache tm _ fun s2 m => ih s2 m) t.fields s
          rwa [hf] at this
        cases r with
        | ok cols =>
          intro N v h
          have h1 := hg N v h
          by_cases heq : t.fullName = N
          · subst heq
            rw [h] at hc
            exact Option.noConfusion hc
          · simpa [cacheLookup_insert_ne s1.cache t.fullName N cols heq] using h1
        | err e => simpa using hg
        | timeout => simpa using hg
      | err e => simpa [hd] using cachePreserved_refl s.cache
      | timeout => simpa [hd] using cachePreserved_refl s.cache

theorem generateGlueSchema_cache (tm : TypeMapping) (fuel : Nat) (s : ConvState)
    (mn : Option String) :
    cachePreserved s.cache ((generateGlueSchema tm fuel s mn).2).cache := by
  cases mn with
  | some n =>
    unfold generateGlueSchema
    cases h : lookupType s.graph n with
    | some t => simpa [h] using convertMessageType_cache tm fuel s t
    | none => simpa [h] using cachePreserved_refl s.cache
  | none =>
    unfold generateGlueSchema
    cases h : firstMessageType s.graph with
    | some t => simpa [h] using convertMessageType_cache tm fuel s t
    | none => simpa [h] using cachePreserved_refl s.cache

/-! ## C10: the cache is keyed by name only, persists, and is never
overwritten -/

/-- C10: the cache is keyed only by fully-qualified name and persists across
calls on the same converter state: whenever the cache maps a name `N` to
columns, any `convertMessageType` on a type whose full name is `N` — from
whatever graph now held in the state, with whatever fields — returns the
cached columns with the state unchanged; the same holds through
`generateGlueSchema` when the name lookup selects such a type; and no
converter operation ever makes an existing cache association unobservable. -/
theorem c10_cache_persistence :
    (∀ (tm : TypeMapping) (n : Nat) (s : ConvState) (t : MessageType)
        (cols : List Column),
      cacheLookup s.cache t.fullName = some cols →
      convertMessageType tm (n + 1) s t = (.ok cols, s))
    ∧ (∀ (tm : TypeMapping) (n : Nat) (s : ConvState) (nm : String)
        (t : MessageType) (cols : List Column),
      lookupType s.graph nm = some t →
      cacheLookup s.cache t.fullName = some cols →
      generateGlueSchema tm (n + 1) s (some nm) = (.ok cols, s))
    ∧ (∀ (tm : TypeMapping) (n : Nat) (s : ConvState) (t : MessageType),
      cachePreserved s.cache ((convertMessageType tm n s t).2).cache)
    ∧ (∀ (tm : TypeMapping) (fuel : Nat) (s : ConvState) (mn : Option String),
      cachePreserved s.cache ((generateGlueSchema tm fuel s mn).2).cache) := by
  refine ⟨?_, ?_, ?_, ?_⟩
  · intro tm n s t cols h
    unfold convertMessageType
    simp [h]
  · intro tm n s nm t cols hlt h
    unfold generateGlueSchema
    simp only [hlt]
    unfold convertMessageType
    simp [h]
  · exact fun tm n s t => convertMessageType_cache tm n s t
  · exact fun tm fuel s mn => generateGlueSchema_cache tm fuel s mn

/-- A second schema source declaring a different `User` message. -/
def msgUserV2 : MessageType := ⟨"User", [⟨"id", .prim "int64", false⟩]⟩

/-- Graph of the second schema source. -/
def gUserV2 : TypeGraph := ⟨[.msgDecl msgUserV2]⟩

/-- Witness for C10: with the cache still holding the first schema's `User`
columns, converting the second schema's different `User` type returns the
stale cached columns unchanged — also through `generateGlueSchema`. -/
theorem c10_cache_persistence_witness :
    convertMessageType DEFAULT_TYPE_MAPPING 1 ⟨gUserV2, cacheUserFinal⟩ msgUserV2 =
      (.ok userColumns, ⟨gUserV2, cacheUserFinal⟩)
    ∧ generateGlueSchema DEFAULT_TYPE_MAPPING 1 ⟨gUserV2, cacheUserFinal⟩
        (some "User") = (.ok userColumns, ⟨gUserV2, cacheUserFinal⟩) :=
  ⟨c10_cache_persistence.1 DEFAULT_TYPE_MAPPING 0 ⟨gUserV2, cacheUserFinal⟩
      msgUserV2 userColumns rfl,
   c10_cache_persistence.2.1 DEFAULT_TYPE_MAPPING 0 ⟨gUserV2, cacheUserFinal⟩
      "User" msgUserV2 userColumns rfl rfl⟩

/-! ## Reachability along message-typed fields, and cycle detection -/

/-- `Reaches g t u`: `u` is reachable from `t` through a chain of fields that
resolve to message types (reflexive). -/
inductive Reaches (g : TypeGraph) : MessageType → MessageType → Prop where
  | refl (t : MessageType) : Reaches g t t
  | head (t m u : MessageType) (f : Field) (hf : f ∈ t.fields)
      (hr : resolveField g f = .msg m) (hmu : Reaches g m u) : Reaches g t u

/-- `t` is reachable from itself through at least one message-typed field:
some reachable type carries a field resolving back to `t`. -/
def SelfCycle (g : TypeGraph) (t : MessageType) : Prop :=
  ∃ u, Reaches g t u ∧ ∃ f ∈ u.fields, resolvesTo g f t = true

theorem detectFieldListAux_ok {g : TypeGraph} {det : MessageType → Res Unit}
    {fs : List Field} (h : detectFieldListAux g det fs = .ok ()) :
    ∀ f ∈ fs, ∀ m, resolveField g f = .msg m → det m = .ok () := by
  induction fs with
  | nil => intro f hf; exact absurd hf (List.not_mem_nil f)
  | cons f0 fs ih =>
    intro f hf m hm
    unfold detectFieldListAux at h
    cases hres : resolveField g f0 with
    | msg m0 =>
      simp only [hres] at h
      cases hd : det m0 with
      | ok u =>
        cases u
        simp only [hd] at h
        rcases List.mem_cons.mp hf with rfl | hf2
        · have hmm : m = m0 := by
            have := hres.symm.trans hm
            exact (ResolvedType.msg.injEq .. ▸ this).symm
          rw [hmm]
          exact hd
        · exact ih h f hf2 m hm
      | err e => simp [hd] at h
      | timeout => simp [hd] at h
    | enumType e =>
      simp only [hres] at h
      rcases List.mem_cons.mp hf with rfl | hf2
      · exact absurd (hres.symm.trans hm) (by simp)
      · exact ih h f hf2 m hm
    | prim tag =>
      simp only [hres] at h
      rcases List.mem_cons.mp hf with rfl | hf2
      · exact absurd (hres.symm.trans hm) (by simp)
      · exact ih h f hf2 m hm

theorem detectFieldListAux_err {g : TypeGraph} {det : MessageType → Res Unit}
    {fs : List Field} {e : ConvError}
    (h : detectFieldListAux g det fs = .err e) :
    ∃ f ∈ fs, ∃ m, resolveField g f = .msg m ∧ det m = .err e := by
  induction fs with
  | nil => simp [detectFieldListAux] at h
  | cons f0 fs ih =>
    unfold detectFieldListAux at h
    cases hres : resolveField g f0 with
    | msg m0 =>
      simp only [hres] at h
      cases hd : det m0 with
      | ok u =>
        cases u
        simp only [hd] at h
        obtain ⟨f, hf, m, hm, hdet⟩ := ih h
        exact ⟨f, List.mem_cons_of_mem _ hf, m, hm, hdet⟩
      | err e2 =>
        simp only [hd] at h
        have he : e2 = e := by
          injection h
        subst he
        exact ⟨f0, List.mem_cons_self .., m0, hres, hd⟩
      | timeout => simp [hd] at h
    | enumType e2 =>
      simp only [hres] at h
      obtain ⟨f, hf, m, hm, hdet⟩ := ih h
      exact ⟨f, List.mem_cons_of_mem _ hf, m, hm, hdet⟩
    | prim tag =>
      simp only [hres] at h
      obtain ⟨f, hf, m, hm, hdet⟩ := ih h
      exact ⟨f, List.mem_cons_of_mem _ hf, m, hm, hdet⟩

/-- Every error thrown by the cycle check names the ORIGINAL type under
conversion, not the type carrying the back-edge. -/
theorem detect_err {g : TypeGraph} :
    ∀ (n : Nat) (cur origin : MessageType) (e : ConvError),
      detectCircular g n cur origin = .err e →
      e = .circularReference origin.fullName := by
  intro n
  induction n with
  | zero =>
    intro cur origin e h
    exact absurd h (by simp [detectCircular])
  | succ n ih =>
    intro cur origin e h
    unfold detectCircular at h
    by_cases hany : (cur.fields.any fun f => resolvesTo g f origin) = true
    · rw [if_pos hany] at h
      injection h with h2
      exact h2.symm
    · rw [if_neg hany] at h
      obtain ⟨f, hf, m, hm, hd⟩ := detectFieldListAux_err h
      exact ih m origin e hd

/-- A successful cycle check certifies that no type reachable from `cur` has
a field resolving to `origin`. -/
theorem detect_ok_no_reach {g : TypeGraph} :
    ∀ (n : Nat) (cur origin : MessageType),
      detectCircular g n cur origin = .ok () →
      ∀ u, Reaches g cur u → ∀ f ∈ u.fields, resolvesTo g f origin = false := by
  intro n
  induction n with
  | zero =>
    intro cur origin h
    exact absurd h (by simp [detectCircular])
  | succ n ih =>
    intro cur origin h u hreach
    unfold detectCircular at h
    by_cases hany : (cur.fields.any fun f => resolvesTo g f origin) = true
    · rw [if_pos hany] at h
      exact absurd h (by simp)
    · rw [if_neg hany] at h
      cases hreach with
      | refl =>
        intro f hf
        have hfalse : (cur.fields.any fun f => resolvesTo g f origin) = false := by
          revert hany
          cases cur.fields.any fun f => resolvesTo g f origin <;> simp
        have := List.any_eq_false.mp hfalse f hf
        revert this
        cases resolvesTo g f origin <;> simp
      | head t m2 u f2 hf2 hr2 hmu =>
        exact ih m2 origin (detectFieldListAux_ok h f2 hf2 m2 hr2) u hmu

/-- When cycle detection at the fuel used by `_convertMessageType` ends with
`.timeout`, conversion itself ends with `.timeout` and no state change. -/
theorem convertMessageType_timeout_of_detect (tm : TypeMapping) (n : Nat)
    (s : ConvState) (t : MessageType)
    (hc : cacheLookup s.cache t.fullName = none)
    (hd : detectCircular s.graph (n + 1) t t = .timeout) :
    convertMessageType tm (n + 1) s t = (.timeout, s) := by
  unfold convertMessageType
  simp only [hc, hd]

/-! ## C1: circular references through the requested type -/

/-- C1 (amended): if the requested type is reachable from itself through
message-typed fields and is not already cached, `convertMessageType` never
succeeds (at any fuel, hence never returns a partial schema); moreover,
whenever the cycle-detection traversal terminates, conversion fails with
`CircularReference` naming the originally requested origin type, before any
column is built and with the state unchanged. -/
theorem c1_circular_reference :
    ∀ (tm : TypeMapping) (n : Nat) (s : ConvState) (t : MessageType),
      SelfCycle s.graph t →
      cacheLookup s.cache t.fullName = none →
      (∀ (m : Nat) (cols : List Column) (s2 : ConvState),
        convertMessageType tm m s t ≠ (.ok cols, s2))
      ∧ (detectCircular s.graph (n + 1) t t ≠ .timeout →
        convertMessageType tm (n + 1) s t =
          (.err (.circularReference t.fullName), s)) := by
  intro tm n s t hcyc hc
  obtain ⟨u, hreach, f, hfu, hres⟩ := hcyc
  have hnotok : ∀ k, detectCircular s.graph k t t ≠ .ok () := by
    intro k hk
    have := detect_ok_no_reach k t t hk u hreach f hfu
    rw [hres] at this
    exact Bool.noConfusion this
  constructor
  · intro m cols s2 hm
    cases m with
    | zero => simp [convertMessageType] at hm
    | succ m =>
      unfold convertMessageType at hm
      simp only [hc] at hm
      cases hd : detectCircular s.graph (m + 1) t t with
      | ok v =>
        cases v
        exact hnotok (m + 1) hd
      | err e => simp [hd] at hm
      | timeout => simp [hd] at hm
  · intro hnt
    cases hd : detectCircular s.graph (n + 1) t t with
    | ok v =>
      cases v
      exact absurd hd (hnotok (n + 1))
    | timeout => exact absurd hd hnt
    | err e =>
      have he := detect_err (n + 1) t t e hd
      subst he
      unfold convertMessageType
      simp only [hc, hd]

/-- Witness for the amended C1: the direct self-reference
`message A { A self = 1; }` fails with `CircularReference("A")`. -/
theorem c1_circular_reference_witness :
    convertMessageType DEFAULT_TYPE_MAPPING 1 ⟨gSelf, []⟩ msgSelfA =
      (.err (.circularReference "A"), ⟨gSelf, []⟩) :=
  (c1_circular_reference DEFAULT_TYPE_MAPPING 0 ⟨gSelf, []⟩ msgSelfA
    ⟨msgSelfA, Reaches.refl _, ⟨"self", .msgRef "A", false⟩,
      by simp [msgSelfA], rfl⟩
    rfl).2
    (by
      rw [show detectCircular gSelf 1 msgSelfA msgSelfA =
          .err (.circularReference "A") from rfl]
      simp)

/-- `message B { B b = 1; }`: a self-cycle off to the side of `A`. -/
def msgSideB : MessageType := ⟨"B", [⟨"b", .msgRef "B", false⟩]⟩

/-- `message C { A a = 1; }`: the back-edge to `A`. -/
def msgSideC : MessageType := ⟨"C", [⟨"a", .msgRef "A", false⟩]⟩

/-- `message A { B b = 1; C c = 2; }`. -/
def msgSideA : MessageType :=
  ⟨"A", [⟨"b", .msgRef "B", false⟩, ⟨"c", .msgRef "C", false⟩]⟩

/-- Graph where `A` is reachable from itself via `C`, but the detection walk
first enters the `B` self-cycle. -/
def gSide : TypeGraph := ⟨[.msgDecl msgSideA, .msgDecl msgSideB, .msgDecl msgSideC]⟩

/-- The cycle check on `t` exhausts every fuel bound: the source recursion
never returns. -/
def DetectDiverges (g : TypeGraph) (t : MessageType) : Prop :=
  ∀ n, detectCircular g n t t = .timeout

/-- Conversion of `t` exhausts every fuel bound: the source call never
returns a value and never throws a converter error. -/
def ConvDiverges (tm : TypeMapping) (s : ConvState) (t : MessageType) : Prop :=
  ∀ n, (convertMessageType tm n s t).1 = .timeout

theorem detect_gSide_B :
    ∀ n, detectCircular gSide n msgSideB msgSideA = .timeout := by
  intro n
  induction n with
  | zero => rfl
  | succ n ih =>
    have hstep : detectCircular gSide (n + 1) msgSideB msgSideA =
        (match detectCircular gSide n msgSideB msgSideA with
         | .ok _ => .ok ()
         | .err e => .err e
         | .timeout => .timeout) := rfl
    rw [hstep, ih]

theorem detect_gSide_A :
    ∀ n, detectCircular gSide n msgSideA msgSideA = .timeout := by
  intro n
  cases n with
  | zero => rfl
  | succ n =>
    have hstep : detectCircular gSide (n + 1) msgSideA msgSideA =
        (match detectCircular gSide n msgSideB msgSideA with
         | .ok _ =>
           (match detectCircular gSide n msgSideC msgSideA with
            | .ok _ => .ok ()
            | .err e => .err e
            | .timeout => .timeout)
         | .err e => .err e
         | .timeout => .timeout) := rfl
    rw [hstep, detect_gSide_B n]

/-- C1 counterexample to the claim as stated: in `gSide` the requested type
`A` IS reachable from itself (via `C`), yet conversion of `A` never throws
`CircularReference` naming `A`: the detection walk enters the `B` self-cycle
first and exhausts every fuel bound (the source recursion never returns; in
Node it dies with a stack overflow, not with the claimed error). -/
theorem c1_circular_reference_counterexample :
    SelfCycle gSide msgSideA
    ∧ DetectDiverges gSide msgSideA
    ∧ ConvDiverges DEFAULT_TYPE_MAPPING ⟨gSide, []⟩ msgSideA := by
  refine ⟨⟨msgSideC, ?_, ⟨"a", .msgRef "A", false⟩, by simp [msgSideC], rfl⟩,
    detect_gSide_A, ?_⟩
  · exact Reaches.head _ msgSideC _ ⟨"c", .msgRef "C", false⟩
      (by simp [msgSideA]) rfl (Reaches.refl _)
  · intro n
    cases n with
    | zero => rfl
    | succ n =>
      rw [convertMessageType_timeout_of_detect DEFAULT_TYPE_MAPPING n
        ⟨gSide, []⟩ msgSideA rfl (detect_gSide_A (n + 1))]

/-! ## C2: termination -/

/-- `message A { B b = 1; }`. -/
def msgChainA : MessageType := ⟨"A", [⟨"b", .msgRef "B", false⟩]⟩

/-- `message B { C c = 1; }`. -/
def msgChainB : MessageType := ⟨"B", [⟨"c", .msgRef "C", false⟩]⟩

/-- `message C { B b = 1; }`. -/
def msgChainC : MessageType := ⟨"C", [⟨"b", .msgRef "B", false⟩]⟩

/-- Graph with a containment cycle `B ↔ C` that does not pass through the
requested type `A`. -/
def gChain : TypeGraph :=
  ⟨[.msgDecl msgChainA, .msgDecl msgChainB, .msgDecl msgChainC]⟩

theorem detect_gChain_BC :
    ∀ n, detectCircular gChain n msgChainB msgChainA = .timeout
      ∧ detectCircular gChain n msgChainC msgChainA = .timeout := by
  intro n
  induction n with
  | zero => exact ⟨rfl, rfl⟩
  | succ n ih =>
    constructor
    · have hstep : detectCircular gChain (n + 1) msgChainB msgChainA =
          (match detectCircular gChain n msgChainC msgChainA with
           | .ok _ => .ok ()
           | .err e => .err e
           | .timeout => .timeout) := rfl
      rw [hstep, ih.2]
    · have hstep : detectCircular gChain (n + 1) msgChainC msgChainA =
          (match detectCircular gChain n msgChainB msgChainA with
           | .ok _ => .ok ()
           | .err e => .err e
           | .timeout => .timeout) := rfl
      rw [hstep, ih.1]

theorem detect_gChain_A :
    ∀ n, detectCircular gChain n msgChainA msgChainA = .timeout := by
  intro n
  cases n with
  | zero => rfl
  | succ n =>
    have hstep : detectCircular gChain (n + 1) msgChainA msgChainA =
        (match detectCircular gChain n msgChainB msgChainA with
         | .ok _ => .ok ()
         | .err e => .err e
         | .timeout => .timeout) := rfl
    rw [hstep, (detect_gChain_BC n).1]

/-- C2 is violated by the code: on the graph `A → B`, `B ↔ C` — a containment
cycle reachable from the requested `A` but not passing through it — both the
cycle check and `convertMessageType` on `A` exhaust every fuel bound: the
source's unbounded recursion (no visited set in `_detectCircularReference`)
never terminates normally, so the graph is neither converted nor rejected. -/
theorem c2_nontermination_on_side_cycle :
    DetectDiverges gChain msgChainA
    ∧ ConvDiverges DEFAULT_TYPE_MAPPING ⟨gChain, []⟩ msgChainA := by
  refine ⟨detect_gChain_A, ?_⟩
  intro n
  cases n with
  | zero => rfl
  | succ n =>
    rw [convertMessageType_timeout_of_detect DEFAULT_TYPE_MAPPING n
      ⟨gChain, []⟩ msgChainA rfl (detect_gChain_A (n + 1))]

/-! ## C6: one column per field, in declared order, names preserved -/

mutual

/-- `ColsOk g fs cols`: the columns correspond one-to-one, in order, to the
fields: each column carries its field's name and a type respecting the
field's resolution. -/
inductive ColsOk : TypeGraph → List Field → List Column → Prop where
  | nil (g : TypeGraph) : ColsOk g [] []
  | cons (g : TypeGraph) (f : Field) (fs : List Field) (col : Column)
      (cols : List Column) (hname : col.name = f.name)
      (hty : TyOk g f col.type) (hrest : ColsOk g fs cols) :
      ColsOk g (f :: fs) (col :: cols)

/-- `TyOk g f ty`: for a field resolving to a nested message type, the column
type is the structured type of sub-columns that again correspond, in declared
order, to the nested type's fields (wrapped in a list when repeated); other
fields are unconstrained here (their types are fixed by C3/C4). -/
inductive TyOk : TypeGraph → Field → GlueType → Prop where
  | msgNonRep (g : TypeGraph) (f : Field) (m : MessageType) (cols : List Column)
      (hrep : f.repeated = false) (hres : resolveField g f = .msg m)
      (hcols : ColsOk g m.fields cols) : TyOk g f (GlueSchema.struct cols)
  | msgRep (g : TypeGraph) (f : Field) (m : MessageType) (cols : List Column)
      (hrep : f.repeated = true) (hres : resolveField g f = .msg m)
      (hcols : ColsOk g m.fields cols) :
      TyOk g f (GlueSchema.array (GlueSchema.struct cols))
  | nonMsg (g : TypeGraph) (f : Field) (ty : GlueType)
      (hres : ∀ m, resolveField g f ≠ .msg m) : TyOk g f ty

end

/-- Every cache entry holds columns corresponding to the fields of the graph's
type of that name. -/
def CacheOk (g : TypeGraph) (c : Cache) : Prop :=
  ∀ N cols, cacheLookup c N = some cols →
    ∀ t, findMsg g N = some t → ColsOk g t.fields cols

/-- Post-condition of the non-repeated conversion, before the repeated flag
is consulted: if the field resolves to a message type, the produced type is
the corresponding structured type. -/
def NROk (g : TypeGraph) (f : Field) (ty : GlueType) : Prop :=
  ∀ m, resolveField g f = .msg m →
    ∃ cols, ty = GlueSchema.struct cols ∧ ColsOk g m.fields cols

theorem ColsOk_names {g : TypeGraph} {fs : List Field} {cols : List Column}
    (h : ColsOk g fs cols) : cols.map Column.name = fs.map Field.name := by
  induction fs generalizing cols with
  | nil => cases h; rfl
  | cons f fs ih =>
    cases h with
    | cons _ _ col cols2 hname hty hrest =>
      simp [ih hrest, hname]

theorem convertNonRepeatedFieldAux_sound (tm : TypeMapping) (g : TypeGraph)
    (recur : ConvState → MessageType → Res (List Column) × ConvState)
    (hrec : ∀ (s : ConvState) (m : MessageType) (cols : List Column)
        (s2 : ConvState),
      s.graph = g → CacheOk g s.cache → findMsg g m.fullName = some m →
      recur s m = (.ok cols, s2) →
      ColsOk g m.fields cols ∧ CacheOk g s2.cache) :
    ∀ (s : ConvState) (f : Field) (col : Column) (s2 : ConvState),
      s.graph = g → CacheOk g s.cache →
      convertNonRepeatedFieldAux tm recur s f = (.ok col, s2) →
      col.name = f.name ∧ NROk g f col.type ∧ CacheOk g s2.cache := by
  intro s f col s2 hg hck h
  unfold convertNonRepeatedFieldAux at h
  rw [hg] at h
  cases hres : resolveField g f with
  | msg m =>
    simp only [hres] at h
    rcases hr : recur s m with ⟨r, s1⟩
    rw [hr] at h
    cases r with
    | ok cols =>
      simp only [Prod.mk.injEq, Res.ok.injEq] at h
      obtain ⟨h1, h2⟩ := h
      subst h2
      subst h1
      obtain ⟨hcols, hck2⟩ :=
        hrec s m cols s1 hg hck (resolveField_findMsg hres) hr
      refine ⟨rfl, ?_, hck2⟩
      intro m2 hm2
      have hmm : m = m2 := by
        have := hres.symm.trans hm2
        simpa using this
      subst hmm
      exact ⟨cols, rfl, hcols⟩
    | err e => simp at h
    | timeout => simp at h
  | enumType e =>
    simp only [hres] at h
    simp only [Prod.mk.injEq, Res.ok.injEq] at h
    obtain ⟨h1, h2⟩ := h
    subst h2
    subst h1
    exact ⟨rfl, fun m hm => absurd (hres.symm.trans hm) (by simp), hck⟩
  | prim tag =>
    simp only [hres] at h
    cases hlk : lookupTM tm tag with
    | some ty =>
      simp only [hlk, Prod.mk.injEq, Res.ok.injEq] at h
      obtain ⟨h1, h2⟩ := h
      subst h2
      subst h1
      exact ⟨rfl, fun m hm => absurd (hres.symm.trans hm) (by simp), hck⟩
    | none => simp [hlk] at h

theorem convertFieldAux_sound (tm : TypeMapping) (g : TypeGraph)
    (recur : ConvState → MessageType → Res (List Column) × ConvState)
    (hrec : ∀ (s : ConvState) (m : MessageType) (cols : List Column)
        (s2 : ConvState),
      s.graph = g → CacheOk g s.cache → findMsg g m.fullName = some m →
      recur s m = (.ok cols, s2) →
      ColsOk g m.fields cols ∧ CacheOk g s2.cache) :
    ∀ (s : ConvState) (f : Field) (col : Column) (s2 : ConvState),
      s.graph = g → CacheOk g s.cache →
      convertFieldAux tm recur s f = (.ok col, s2) →
      col.name = f.name ∧ TyOk g f col.type ∧ CacheOk g s2.cache := by
  intro s f col s2 hg hck h
  cases hrep : f.repeated with
  | false =>
    have h2 : convertNonRepeatedFieldAux tm recur s f = (.ok col, s2) := by
      simpa [convertFieldAux, hrep] using h
    obtain ⟨hname, hnr, hck2⟩ :=
      convertNonRepeatedFieldAux_sound tm g recur hrec s f col s2 hg hck h2
    refine ⟨hname, ?_, hck2⟩
    cases hres : resolveField g f with
    | msg m =>
      obtain ⟨cols, hty, hcols⟩ := hnr m hres
      rw [hty]
      exact TyOk.msgNonRep g f m cols hrep hres hcols
    | enumType e =>
      exact TyOk.nonMsg g f col.type
        (fun m hm => absurd (hres.symm.trans hm) (by simp))
    | prim tag =>
      exact TyOk.nonMsg g f col.type
        (fun m hm => absurd (hres.symm.trans hm) (by simp))
  | true =>
    have h2 : resolveRepeatedFieldAux tm recur s f = (.ok col, s2) := by
      simpa [convertFieldAux, hrep] using h
    unfold resolveRepeatedFieldAux at h2
    rcases hr : convertNonRepeatedFieldAux tm recur s f with ⟨r, s1⟩
    rw [hr] at h2
    cases r with
    | ok col0 =>
      simp only [Prod.mk.injEq, Res.ok.injEq] at h2
      obtain ⟨h1, hseq⟩ := h2
      subst hseq
      subst h1
      obtain ⟨hname0, hnr, hck2⟩ :=
        convertNonRepeatedFieldAux_sound tm g recur hrec s f col0 s1 hg hck hr
      refine ⟨rfl, ?_, hck2⟩
      cases hres : resolveField g f with
      | msg m =>
        obtain ⟨cols, hty0, hcols⟩ := hnr m hres
        show TyOk g f (GlueSchema.array col0.type)
        rw [hty0]
        exact TyOk.msgRep g f m cols hrep hres hcols
      | enumType e =>
        exact TyOk.nonMsg g f _
          (fun m hm => absurd (hres.symm.trans hm) (by simp))
      | prim tag =>
        exact TyOk.nonMsg g f _
          (fun m hm => absurd (hres.symm.trans hm) (by simp))
    | err e => simp at h2
    | timeout => simp at h2

theorem convertFieldListAux_sound (g : TypeGraph)
    (cf : ConvState → Field → Res Column × ConvState)
    (hcfG : ∀ s f, ((cf s f).2).graph = s.graph)
    (hcf : ∀ (s : ConvState) (f : Field) (col : Column) (s2 : ConvState),
      s.graph = g → CacheOk g s.cache → cf s f = (.ok col, s2) →
      col.name = f.name ∧ TyOk g f col.type ∧ CacheOk g s2.cache) :
    ∀ (fs : List Field) (s : ConvState) (cols : List Column) (s2 : ConvState),
      s.graph = g → CacheOk g s.cache →
      convertFieldListAux cf s fs = (.ok cols, s2) →
      ColsOk g fs cols ∧ CacheOk g s2.cache := by
  intro fs
  induction fs with
  | nil =>
    intro s cols s2 hg hck h
    simp only [convertFieldListAux, Prod.mk.injEq, Res.ok.injEq] at h
    obtain ⟨h1, h2⟩ := h
    subst h1
    subst h2
    exact ⟨ColsOk.nil g, hck⟩
  | cons f fs ih =>
    intro s cols s2 hg hck h
    unfold convertFieldListAux at h
    rcases h1 : cf s f with ⟨r1, s1⟩
    rw [h1] at h
    cases r1 with
    | ok col =>
      simp only at h
      have hg1 : s1.graph = g := by rw [← hg, ← hcfG s f, h1]
      obtain ⟨hname, hty, hck1⟩ := hcf s f col s1 hg hck h1
      rcases h2 : convertFieldListAux cf s1 fs with ⟨r2, s2x⟩
      rw [h2] at h
      cases r2 with
      | ok cols2 =>
        simp only [Prod.mk.injEq, Res.ok.injEq] at h
        obtain ⟨hcc, hss⟩ := h
        subst hcc
        subst hss
        obtain ⟨hcolsok, hck2⟩ := ih s1 cols2 s2x hg1 hck1 h2
        exact ⟨ColsOk.cons g f fs col cols2 hname hty hcolsok, hck2⟩
      | err e => simp at h
      | timeout => simp at h
    | err e => simp at h
    | timeout => simp at h

theorem convertMessageType_sound (tm : TypeMapping) :
    ∀ (n : Nat) (s : ConvState) (t : MessageType) (cols : List Column)
      (s2 : ConvState),
      CacheOk s.graph s.cache → findMsg s.graph t.fullName = some t →
      convertMessageType tm n s t = (.ok cols, s2) →
      ColsOk s.graph t.fields cols ∧ CacheOk s.graph s2.cache := by
  intro n
  induction n with
  | zero =>
    intro s t cols s2 _ _ h
    exact absurd h (by simp [convertMessageType])
  | succ n ih =>
    intro s t cols s2 hck hfind h
    unfold convertMessageType at h
    cases hc : cacheLookup s.cache t.fullName with
    | some cols0 =>
      rw [hc] at h
      simp only [Prod.mk.injEq, Res.ok.injEq] at h
      obtain ⟨h1, h2⟩ := h
      subst h1
      subst h2
      exact ⟨hck t.fullName cols0 hc t hfind, hck⟩
    | none =>
      rw [hc] at h
      cases hd : detectCircular s.graph (n + 1) t t with
      | ok v =>
        cases v
        simp only [hd] at h
        rcases hf : convertFieldListAux
            (convertFieldAux tm fun s2 m => convertMessageType tm n s2 m)
            s t.fields with ⟨r, s1⟩
        rw [hf] at h
        cases r with
        | ok cols1 =>
          simp only [Prod.mk.injEq, Res.ok.injEq] at h
          obtain ⟨h1, h2⟩ := h
          subst h1
          have hrec : ∀ (s3 : ConvState) (m : MessageType) (cols3 : List Column)
              (s4 : ConvState),
              s3.graph = s.graph → CacheOk s.graph s3.cache →
              findMsg s.graph m.fullName = some m →
              convertMessageType tm n s3 m = (.ok cols3, s4) →
              ColsOk s.graph m.fields cols3 ∧ CacheOk s.graph s4.cache := by
            intro s3 m cols3 s4 hg3 hck3 hfind3 h3
            have := ih s3 m cols3 s4 (by rw [hg3]; exact hck3)
              (by rw [hg3]; exact hfind3) h3
            rwa [hg3] at this
          have hsound := convertFieldListAux_sound s.graph _
            (convertFieldAux_graph tm _
              (fun s3 m => convertMessageType_graph tm n s3 m))
            (convertFieldAux_sound tm s.graph _ hrec)
            t.fields s cols1 s1 rfl hck hf
          obtain ⟨hcolsok, hck1⟩ := hsound
          subst h2
          refine ⟨hcolsok, ?_⟩
          intro N colsN hN t2 hfind2
          have hN2 : cacheLookup (cacheInsert s1.cache t.fullName cols1) N =
              some colsN := hN
          by_cases heq : t.fullName = N
          · subst heq
            rw [cacheLookup_insert_self] at hN2
            have hcolsN : cols1 = colsN := by injection hN2
            subst hcolsN
            have ht2 : t = t2 := by
              rw [hfind] at hfind2
              injection hfind2
            subst ht2
            exact hcolsok
          · rw [cacheLookup_insert_ne _ _ _ _ heq] at hN2
            exact hck1 N colsN hN2 t2 hfind2
        | err e => simp at h
        | timeout => simp at h
      | err e => simp [hd] at h
      | timeout => simp [hd] at h

/-- C6: on every successful conversion started from an empty cache, the
returned sequence has exactly one column per field of the requested type, in
the type's declared field order, each column named after its field; and every
column built for a field typed as a nested message carries structured
sub-columns that likewise follow the nested type's declared field order
(`ColsOk`/`TyOk`). -/
theorem c6_columns_follow_fields :
    ∀ (tm : TypeMapping) (n : Nat) (g : TypeGraph) (t : MessageType)
      (cols : List Column) (s2 : ConvState),
      findMsg g t.fullName = some t →
      convertMessageType tm n ⟨g, []⟩ t = (.ok cols, s2) →
      ColsOk g t.fields cols
      ∧ cols.map Column.name = t.fields.map Field.name := by
  intro tm n g t cols s2 hfind h
  have hck : CacheOk g ([] : Cache) := by
    intro N colsN hN
    simp [cacheLookup] at hN
  have hs := convertMessageType_sound tm n ⟨g, []⟩ t cols s2 hck hfind h
  exact ⟨hs.1, ColsOk_names hs.1⟩

/-- Witness for C6: converting `User` yields columns matching its four fields
in order, with the nested `Address` struct matching `Address`'s field order. -/
theorem c6_columns_follow_fields_witness :
    ColsOk gUser msgUser.fields userColumns
    ∧ userColumns.map Column.name = msgUser.fields.map Field.name :=
  c6_columns_follow_fields DEFAULT_TYPE_MAPPING 2 gUser msgUser userColumns
    ⟨gUser, cacheUserFinal⟩ rfl rfl

end Proto
